import Mathlib

/-!
Verification of the form-repl symbolic-expression core (src/src/ast.rs,
src/src/lexer.rs, src/src/parser.rs, src/src/evaluator.rs).

Modelling conventions:
* Rust `f64` literals are modelled as exact rationals (`ℚ`).  All arithmetic
  that the claims exercise (`+ - * /`, comparison with `0.0`/`1.0`, the
  `1e-10` matching tolerance, integral exponents) is exact in `f64` as well,
  so the embedding agrees with the source on every input the claims touch.
* `f64::powf` is modelled by `powf` below: exact for integral exponents
  (the only exponents any claim evaluates); non-integral exponents are mapped
  to `0` and are never relied upon.
* The four transcendental built-ins (`sin`, `cos`, `exp`, `log`) cannot be
  represented exactly in `ℚ`; the evaluator is therefore parametrised by an
  arbitrary interpretation `F : String → ℚ → ℚ` of them, and every theorem
  holds for every such interpretation.
* `HashMap<String, Expr>` is modelled as an association list without duplicate
  keys; `insert` overwrites in place, `get` finds the first (unique) entry.
  Iteration in `Sort` maps over the entries; since each entry is rewritten
  independently against the pre-`Sort` table, iteration order is irrelevant.
* The mutually recursive Rust functions are given fuel (`Nat`) where the
  source recursion is not structurally bounded (symbol resolution in
  `simplify` can genuinely diverge on self-referential tables, which the
  source documents as a stack-overflow risk).  `none` models divergence;
  `some (Except.error m)` models `Err(m)`; `some (Except.ok v)` models `Ok(v)`.
-/

/-- `BinOpKind` from src/src/ast.rs. -/
inductive BinOpKind where
  | add | sub | mul | div | pow
deriving DecidableEq

/-- `UnOpKind` from src/src/ast.rs. -/
inductive UnOpKind where
  | neg
deriving DecidableEq

/-- `Expr` from src/src/ast.rs; `f64` payloads modelled as `ℚ`. -/
inductive Expr where
  | number : ℚ → Expr
  | symbol : String → Expr
  | binop : BinOpKind → Expr → Expr → Expr
  | unop : UnOpKind → Expr → Expr
  | fcall : String → List Expr → Expr

mutual

/-- Decidable equality for `Expr` (Rust's derived `PartialEq` on `Expr`). -/
def exprDecEq : (a b : Expr) → Decidable (a = b)
  | .number a, .number b =>
    match decEq a b with
    | isTrue h => isTrue (h ▸ rfl)
    | isFalse h => isFalse (fun hh => h (Expr.number.inj hh))
  | .symbol a, .symbol b =>
    match decEq a b with
    | isTrue h => isTrue (h ▸ rfl)
    | isFalse h => isFalse (fun hh => h (Expr.symbol.inj hh))
  | .binop o1 l1 r1, .binop o2 l2 r2 =>
    match decEq o1 o2, exprDecEq l1 l2, exprDecEq r1 r2 with
    | isTrue h1, isTrue h2, isTrue h3 => isTrue (by rw [h1, h2, h3])
    | isFalse h1, _, _ => isFalse (fun hh => h1 (Expr.binop.inj hh).1)
    | _, isFalse h2, _ => isFalse (fun hh => h2 (Expr.binop.inj hh).2.1)
    | _, _, isFalse h3 => isFalse (fun hh => h3 (Expr.binop.inj hh).2.2)
  | .unop o1 x1, .unop o2 x2 =>
    match decEq o1 o2, exprDecEq x1 x2 with
    | isTrue h1, isTrue h2 => isTrue (by rw [h1, h2])
    | isFalse h1, _ => isFalse (fun hh => h1 (Expr.unop.inj hh).1)
    | _, isFalse h2 => isFalse (fun hh => h2 (Expr.unop.inj hh).2)
  | .fcall n1 a1, .fcall n2 a2 =>
    match decEq n1 n2, exprListDecEq a1 a2 with
    | isTrue h1, isTrue h2 => isTrue (by rw [h1, h2])
    | isFalse h1, _ => isFalse (fun hh => h1 (Expr.fcall.inj hh).1)
    | _, isFalse h2 => isFalse (fun hh => h2 (Expr.fcall.inj hh).2)
  | .number _, .symbol _ => isFalse (fun h => nomatch h)
  | .number _, .binop _ _ _ => isFalse (fun h => nomatch h)
  | .number _, .unop _ _ => isFalse (fun h => nomatch h)
  | .number _, .fcall _ _ => isFalse (fun h => nomatch h)
  | .symbol _, .number _ => isFalse (fun h => nomatch h)
  | .symbol _, .binop _ _ _ => isFalse (fun h => nomatch h)
  | .symbol _, .unop _ _ => isFalse (fun h => nomatch h)
  | .symbol _, .fcall _ _ => isFalse (fun h => nomatch h)
  | .binop _ _ _, .number _ => isFalse (fun h => nomatch h)
  | .binop _ _ _, .symbol _ => isFalse (fun h => nomatch h)
  | .binop _ _ _, .unop _ _ => isFalse (fun h => nomatch h)
  | .binop _ _ _, .fcall _ _ => isFalse (fun h => nomatch h)
  | .unop _ _, .number _ => isFalse (fun h => nomatch h)
  | .unop _ _, .symbol _ => isFalse (fun h => nomatch h)
  | .unop _ _, .binop _ _ _ => isFalse (fun h => nomatch h)
  | .unop _ _, .fcall _ _ => isFalse (fun h => nomatch h)
  | .fcall _ _, .number _ => isFalse (fun h => nomatch h)
  | .fcall _ _, .symbol _ => isFalse (fun h => nomatch h)
  | .fcall _ _, .binop _ _ _ => isFalse (fun h => nomatch h)
  | .fcall _ _, .unop _ _ => isFalse (fun h => nomatch h)

/-- Decidable equality for lists of `Expr`. -/
def exprListDecEq : (a b : List Expr) → Decidable (a = b)
  | [], [] => isTrue rfl
  | [], _ :: _ => isFalse (fun h => nomatch h)
  | _ :: _, [] => isFalse (fun h => nomatch h)
  | a :: as, b :: bs =>
    match exprDecEq a b, exprListDecEq as bs with
    | isTrue h1, isTrue h2 => isTrue (by rw [h1, h2])
    | isFalse h1, _ => isFalse (fun hh => h1 (List.cons.inj hh).1)
    | _, isFalse h2 => isFalse (fun hh => h2 (List.cons.inj hh).2)

end

instance : DecidableEq Expr := exprDecEq

/-- `Statement` from src/src/ast.rs. -/
inductive Statement where
  | symbolsDecl : List String → Statement
  | expressionDecl : String → Expr → Statement
  | localDecl : String → Expr → Statement
  | idRule : Expr → Expr → Statement
  | print : String → Statement
  | sort : Statement
  | evalExpr : Expr → Statement
deriving DecidableEq

/-- `HashMap::get`: look up a key in an association-list table. -/
def tblGet (t : List (String × Expr)) (k : String) : Option Expr :=
  match t with
  | [] => none
  | (k2, v) :: rest => if k2 = k then some v else tblGet rest k

/-- `HashMap::insert`: overwrite the entry for `k` in place, or append it. -/
def tblInsert (t : List (String × Expr)) (k : String) (v : Expr) :
    List (String × Expr) :=
  match t with
  | [] => [(k, v)]
  | (k2, v2) :: rest =>
    if k2 = k then (k2, v) :: rest else (k2, v2) :: tblInsert rest k v

/-- Model of `f64::powf` (src/src/evaluator.rs line 93): exact for integral
exponents, which are the only exponents evaluated by any claim; non-integral
exponents are mapped to `0` and never relied upon. -/
def powf (l r : ℚ) : ℚ :=
  if r.den = 1 then l ^ r.num else 0

/-- Sequencing of `Result` values under the divergence layer: Rust's `?`
operator, with `none` (divergence) passed through. -/
def rbind (x : Option (Except String α)) (f : α → Option (Except String β)) :
    Option (Except String β) :=
  match x with
  | none => none
  | some (Except.error e) => some (Except.error e)
  | some (Except.ok a) => f a

/-- Constant folding of a `BinOp` on two numeric literals
(src/src/evaluator.rs lines 82-96). -/
def foldNum (op : BinOpKind) (a b : ℚ) : Option (Except String Expr) :=
  match op with
  | .add => some (Except.ok (.number (a + b)))
  | .sub => some (Except.ok (.number (a - b)))
  | .mul => some (Except.ok (.number (a * b)))
  | .div =>
    if b = 0 then some (Except.error "Division by zero")
    else some (Except.ok (.number (a / b)))
  | .pow => some (Except.ok (.number (powf a b)))

/-- The algebraic-identity pass on a `BinOp` whose sides are not both numeric
(src/src/evaluator.rs lines 98-142), with the source's check order. -/
def algSimp (op : BinOpKind) (l r : Expr) : Expr :=
  match op with
  | .add =>
    if r = .number 0 then l
    else if l = .number 0 then r
    else .binop .add l r
  | .mul =>
    if r = .number 0 then .number 0
    else if l = .number 0 then .number 0
    else if r = .number 1 then l
    else if l = .number 1 then r
    else .binop .mul l r
  | .pow =>
    if r = .number 0 then .number 1
    else if r = .number 1 then l
    else .binop .pow l r
  | _ => .binop op l r

/-- The `BinOp` branch of `simplify` after both sides are simplified. -/
def simpBinOp (op : BinOpKind) (l r : Expr) : Option (Except String Expr) :=
  match l, r with
  | .number a, .number b => foldNum op a b
  | _, _ => some (Except.ok (algSimp op l r))

/-- The built-in function set of src/src/evaluator.rs line 165. -/
def isBuiltin (name : String) : Bool :=
  name = "sin" || name = "cos" || name = "exp" || name = "log"

/-- `Result`-collecting traversal of function-call arguments
(src/src/evaluator.rs line 160): short-circuits at the first error. -/
def simplifyArgs (g : Expr → Option (Except String Expr)) :
    List Expr → Option (Except String (List Expr))
  | [] => some (Except.ok [])
  | a :: as =>
    rbind (g a) fun a2 =>
      rbind (simplifyArgs g as) fun as2 => some (Except.ok (a2 :: as2))

/-- `Evaluator::simplify` (src/src/evaluator.rs lines 66-185), fuelled.
`F` interprets the transcendental built-ins; `t` is the `expressions` table. -/
def simplify (F : String → ℚ → ℚ) (t : List (String × Expr)) :
    Nat → Expr → Option (Except String Expr)
  | 0, _ => none
  | f + 1, e =>
    match e with
    | .number n => some (Except.ok (.number n))
    | .symbol name =>
      match tblGet t name with
      | some v => simplify F t f v
      | none => some (Except.ok (.symbol name))
    | .binop op l r =>
      rbind (simplify F t f l) fun l2 =>
        rbind (simplify F t f r) fun r2 => simpBinOp op l2 r2
    | .unop op x =>
      rbind (simplify F t f x) fun x2 =>
        match x2 with
        | .number n =>
          some (Except.ok (.number (match op with | .neg => -n)))
        | _ => some (Except.ok (.unop op x2))
    | .fcall name args =>
      rbind (simplifyArgs (fun a => simplify F t f a) args) fun args2 =>
        if isBuiltin name then
          match args2 with
          | [.number n] => some (Except.ok (.number (F name n)))
          | _ => some (Except.ok (.fcall name args2))
        else some (Except.ok (.fcall name args2))

/-- The `1e-10` matching tolerance of src/src/evaluator.rs line 296. -/
def tol : ℚ := 1 / 10000000000

/-- `Evaluator::match_pattern` (src/src/evaluator.rs lines 285-335): structural
match of a candidate expression against a pattern, producing bindings.  Merging
of child bindings is `mergeBindings` below. -/
def matchPattern : Expr → Expr → Option (List (String × Expr))
  | .symbol name1, .symbol name2 =>
    if name1 = name2 then some [] else none
  | .number n1, .number n2 =>
    if |n1 - n2| < tol then some [] else none
  | .binop op1 l1 r1, .binop op2 l2 r2 =>
    if op1 = op2 then
      match matchPattern l1 l2 with
      | none => none
      | some lb =>
        match matchPattern r1 r2 with
        | none => none
        | some rb => mergeBindings lb rb
    else none
  | _, _ => none
where
  /-- The binding-merge loop of src/src/evaluator.rs lines 318-327: fold the
  right bindings into the left ones, failing on a conflicting rebinding. -/
  mergeBindings (lb : List (String × Expr)) :
      List (String × Expr) → Option (List (String × Expr))
    | [] => some lb
    | (k, v) :: rest =>
      match tblGet lb k with
      | some v2 =>
        if v2 = v then mergeBindings (tblInsert lb k v) rest else none
      | none => mergeBindings (tblInsert lb k v) rest

mutual

/-- `Evaluator::substitute` (src/src/evaluator.rs lines 337-361). -/
def substitute (b : List (String × Expr)) : Expr → Expr
  | .symbol name =>
    match tblGet b name with
    | some v => v
    | none => .symbol name
  | .binop op l r => .binop op (substitute b l) (substitute b r)
  | .unop op x => .unop op (substitute b x)
  | .fcall n args => .fcall n (substituteList b args)
  | .number n => .number n

/-- `substitute` mapped over a function call's arguments. -/
def substituteList (b : List (String × Expr)) : List Expr → List Expr
  | [] => []
  | a :: as => substitute b a :: substituteList b as

end

/-- The inner rule scan of src/src/evaluator.rs lines 199-205 and 276-280:
first rule whose pattern matches the whole expression, substituted. -/
def findMatch (rules : List (Expr × Expr)) (e : Expr) : Option Expr :=
  match rules with
  | [] => none
  | (pat, rep) :: rest =>
    match matchPattern e pat with
    | some b => some (substitute b rep)
    | none => findMatch rest e

/-- The top-level repeated-rewriting loop of `Evaluator::apply_rules`
(src/src/evaluator.rs lines 194-205), fuelled by the remaining iteration
budget out of `MAX_ITERATIONS = 100`.  The boolean is `true` when the loop
stopped because no rule matched (so the subterm pass runs), `false` when it
stopped because the iteration cap was reached (the subterm pass is skipped). -/
def topLoop (rules : List (Expr × Expr)) : Nat → Expr → Expr × Bool
  | 0, e => (e, false)
  | n + 1, e =>
    match findMatch rules e with
    | some e2 => topLoop rules n e2
    | none => (e, true)

/-- `k`-fold top-level rewriting, stopping early at the first expression no
rule matches: the step-indexed characterisation of `topLoop`. -/
def iterRewrite (rules : List (Expr × Expr)) : Nat → Expr → Expr
  | 0, e => e
  | n + 1, e =>
    match findMatch rules e with
    | some e2 => iterRewrite rules n e2
    | none => e

mutual

/-- `Evaluator::apply_rules_recursive` (src/src/evaluator.rs lines 244-283):
rewrite all subterms bottom-up, then try the rules at this level once. -/
def applyRulesRecursive (rules : List (Expr × Expr)) : Expr → Expr
  | .binop op l r =>
    let result := Expr.binop op (applyRulesRecursive rules l)
      (applyRulesRecursive rules r)
    match findMatch rules result with
    | some e2 => e2
    | none => result
  | .unop op x =>
    let result := Expr.unop op (applyRulesRecursive rules x)
    match findMatch rules result with
    | some e2 => e2
    | none => result
  | .fcall n args =>
    let result := Expr.fcall n (applyRulesRecursiveList rules args)
    match findMatch rules result with
    | some e2 => e2
    | none => result
  | e =>
    match findMatch rules e with
    | some e2 => e2
    | none => e

/-- `applyRulesRecursive` mapped over a function call's arguments. -/
def applyRulesRecursiveList (rules : List (Expr × Expr)) :
    List Expr → List Expr
  | [] => []
  | a :: as => applyRulesRecursive rules a :: applyRulesRecursiveList rules as

end

/-- The one-shot subterm pass of src/src/evaluator.rs lines 208-238, run when
an iteration of the top-level loop found no match. -/
def subtermPass (rules : List (Expr × Expr)) : Expr → Expr
  | .binop op l r =>
    .binop op (applyRulesRecursive rules l) (applyRulesRecursive rules r)
  | .unop op x => .unop op (applyRulesRecursive rules x)
  | .fcall n args => .fcall n (applyRulesRecursiveList rules args)
  | e => e

/-- `Evaluator::apply_rules` (src/src/evaluator.rs lines 187-242): top-level
repeated rewriting up to the 100-iteration cap, then (only if the loop exited
by finding no match) one subterm pass, then a final `simplify`. -/
def applyRules (F : String → ℚ → ℚ) (t : List (String × Expr)) (fuel : Nat)
    (rules : List (Expr × Expr)) (e : Expr) : Option (Except String Expr) :=
  match topLoop rules 100 e with
  | (e2, true) => simplify F t fuel (subtermPass rules e2)
  | (e2, false) => simplify F t fuel e2

/-- The three session tables owned by `Evaluator` (src/src/evaluator.rs
lines 5-9). -/
structure EvalState where
  symbols : List (String × Expr)
  expressions : List (String × Expr)
  rules : List (Expr × Expr)
deriving DecidableEq

/-- The `SymbolsDecl` loop (src/src/evaluator.rs lines 23-25): bind each name
to itself as a `Symbol`. -/
def declareSymbols (t : List (String × Expr)) : List String → List (String × Expr)
  | [] => t
  | s :: rest => declareSymbols (tblInsert t s (.symbol s)) rest

/-- The `Sort` loop (src/src/evaluator.rs lines 51-55): rewrite every stored
expression against the pre-`Sort` table `tOld`, short-circuiting on the first
error. -/
def sortTable (F : String → ℚ → ℚ) (tOld : List (String × Expr)) (fuel : Nat)
    (rules : List (Expr × Expr)) :
    List (String × Expr) → Option (Except String (List (String × Expr)))
  | [] => some (Except.ok [])
  | (k, v) :: rest =>
    rbind (applyRules F tOld fuel rules v) fun v2 =>
      rbind (sortTable F tOld fuel rules rest) fun rest2 =>
        some (Except.ok ((k, v2) :: rest2))

/-- The operator text of `impl Display for Expr` (src/src/ast.rs lines 49-55). -/
def dispBinOp : BinOpKind → String
  | .add => "+"
  | .sub => "-"
  | .mul => "*"
  | .div => "/"
  | .pow => "^"

/-- Number formatting of src/src/ast.rs lines 40-46: integral values print as
integers.  (Non-integral values print in decimal in the source; no claim
displays one, and the rational fallback text is never inspected.) -/
def dispNum (n : ℚ) : String :=
  if n.den = 1 then toString n.num else toString n

mutual

/-- `impl Display for Expr` (src/src/ast.rs lines 37-76). -/
def dispExpr : Expr → String
  | .number n => dispNum n
  | .symbol s => s
  | .binop op l r =>
    "(" ++ dispExpr l ++ " " ++ dispBinOp op ++ " " ++ dispExpr r ++ ")"
  | .unop .neg x => "(-" ++ dispExpr x ++ ")"
  | .fcall n args => n ++ "(" ++ dispArgs args ++ ")"

/-- Comma-separated argument display (src/src/ast.rs lines 64-73). -/
def dispArgs : List Expr → String
  | [] => ""
  | [a] => dispExpr a
  | a :: as => dispExpr a ++ ", " ++ dispArgs as

end

/-- A single-quote character, for building the `Print` failure message. -/
def quoteCh : String := String.mk ['\'']


/-- `Evaluator::eval_statement` (src/src/evaluator.rs lines 20-64).  The
returned pair carries the session state after the statement (the Rust method
mutates `self`) together with the `Result<String, String>`; on an error the
state component is the state at the moment of the early return. -/
def evalStatement (F : String → ℚ → ℚ) (fuel : Nat) (st : EvalState) :
    Statement → Option (EvalState × Except String String)
  | .symbolsDecl syms =>
    some ({ st with symbols := declareSymbols st.symbols syms },
      Except.ok "Symbols declared")
  | .expressionDecl name e =>
    match simplify F st.expressions fuel e with
    | none => none
    | some (Except.error m) => some (st, Except.error m)
    | some (Except.ok s) =>
      some ({ st with expressions := tblInsert st.expressions name s },
        Except.ok (name ++ " = " ++ dispExpr s))
  | .localDecl name e =>
    match simplify F st.expressions fuel e with
    | none => none
    | some (Except.error m) => some (st, Except.error m)
    | some (Except.ok s) =>
      some ({ st with expressions := tblInsert st.expressions name s },
        Except.ok (name ++ " = " ++ dispExpr s))
  | .idRule pat rep =>
    some ({ st with rules := st.rules ++ [(pat, rep)] },
      Except.ok ("Rule added: " ++ dispExpr pat ++ " -> " ++ dispExpr rep))
  | .print name =>
    match tblGet st.expressions name with
    | some e => some (st, Except.ok (name ++ " = " ++ dispExpr e))
    | none =>
      some (st,
        Except.error ("Expression " ++ quoteCh ++ name ++ quoteCh ++ " not found"))
  | .sort =>
    match sortTable F st.expressions fuel st.rules st.expressions with
    | none => none
    | some (Except.error m) => some (st, Except.error m)
    | some (Except.ok updated) =>
      some ({ st with expressions := updated },
        Except.ok "Sorted and rules applied")
  | .evalExpr e =>
    match simplify F st.expressions fuel e with
    | none => none
    | some (Except.error m) => some (st, Except.error m)
    | some (Except.ok s) => some (st, Except.ok (dispExpr s))

/-- `Token` from src/src/lexer.rs. -/
inductive Token where
  | number : ℚ → Token
  | ident : String → Token
  | plus | minus | star | slash | power | equals
  | lparen | rparen | lbracket | rbracket | comma | semicolon
  | kwSymbols | kwExpression | kwLocal | kwId | kwPrint | kwSort
  | eof | newline
deriving DecidableEq

/-- The whitespace set of `Lexer::skip_whitespace` (newline excluded). -/
def isWsChar (c : Char) : Bool := c = ' ' || c = '\t' || c = '\r'

/-- `Lexer::skip_whitespace` (src/src/lexer.rs lines 102-110).  Lexer state is
the absolute position plus the remaining characters. -/
def skipWs : Nat → List Char → Nat × List Char
  | pos, [] => (pos, [])
  | pos, c :: cs => if isWsChar c then skipWs (pos + 1) cs else (pos, c :: cs)

/-- `Lexer::skip_comment` (src/src/lexer.rs lines 112-122): advance to the
first newline (exclusive) or to the end of input. -/
def skipComment : Nat → List Char → Nat × List Char
  | pos, [] => (pos, [])
  | pos, c :: cs => if c = '\n' then (pos, c :: cs) else skipComment (pos + 1) cs

/-- `Lexer::is_comment_start` (src/src/lexer.rs lines 124-128): a comment
starts only at absolute position 0, with `*` immediately followed by a space. -/
def isCommentStart (pos : Nat) (cs : List Char) : Bool :=
  pos = 0 && cs.head? = some '*' && cs.tail.head? = some ' '

/-- Characters collected by `Lexer::read_number`: ASCII digits and dots. -/
def isNumChar (c : Char) : Bool := c.isDigit || c = '.'

/-- The collection loop of `Lexer::read_number` (src/src/lexer.rs
lines 130-143): the collected text, then the position and rest after it. -/
def readNumberChars : Nat → List Char → List Char × Nat × List Char
  | pos, [] => ([], pos, [])
  | pos, c :: cs =>
    if isNumChar c then
      let (ds, p2, r2) := readNumberChars (pos + 1) cs
      (c :: ds, p2, r2)
    else ([], pos, c :: cs)

/-- Value of a digit string. -/
def digitsVal (ds : List Char) : Nat :=
  ds.foldl (fun acc c => acc * 10 + (c.toNat - 48)) 0

/-- `num_str.parse().unwrap_or(0.0)` (src/src/lexer.rs line 142) on a string
of digits and dots: at most one dot parses as a decimal (exactly, in `ℚ`),
anything else falls back to `0.0`. -/
def parseNumLit (ds : List Char) : ℚ :=
  let ip := ds.takeWhile (fun c => c ≠ '.')
  match ds.dropWhile (fun c => c ≠ '.') with
  | [] => (digitsVal ip : ℚ)
  | _ :: frac =>
    if frac.contains '.' then 0
    else (digitsVal ip : ℚ) + (digitsVal frac : ℚ) / (10 : ℚ) ^ frac.length

/-- Characters collected by `Lexer::read_identifier` (alphanumeric or `_`;
the source uses Unicode classes, the claims only exercise ASCII). -/
def isIdentChar (c : Char) : Bool := c.isAlphanum || c = '_'

/-- The collection loop of `Lexer::read_identifier` (src/src/lexer.rs
lines 145-158). -/
def readIdentChars : Nat → List Char → List Char × Nat × List Char
  | pos, [] => ([], pos, [])
  | pos, c :: cs =>
    if isIdentChar c then
      let (ds, p2, r2) := readIdentChars (pos + 1) cs
      (c :: ds, p2, r2)
    else ([], pos, c :: cs)

/-- The keyword table of src/src/lexer.rs lines 190-197. -/
def keywordOrIdent (s : String) : Token :=
  if s = "Symbols" then .kwSymbols
  else if s = "Expression" then .kwExpression
  else if s = "Local" then .kwLocal
  else if s = "id" then .kwId
  else if s = "Print" then .kwPrint
  else .ident s

/-- `Lexer::next_token` (src/src/lexer.rs lines 160-226).  The fuel bounds the
self-recursive retries (comment skip, non-`sort` dot, unknown character), each
of which consumes at least one character, so `length + 1` fuel always
suffices; the fuel-0 fallback is unreachable under that call pattern. -/
def nextToken : Nat → Nat → List Char → Token × Nat × List Char
  | 0, pos, cs => (.eof, pos, cs)
  | fl + 1, pos0, cs0 =>
    let (pos, cs) := skipWs pos0 cs0
    match cs with
    | [] => (.eof, pos, [])
    | c :: cs2 =>
      if isCommentStart pos (c :: cs2) then
        let (p2, r2) := skipComment pos (c :: cs2)
        nextToken fl p2 r2
      else if c = '.' then
        let (idc, p2, r2) := readIdentChars (pos + 1) cs2
        if String.mk idc = "sort" then (.kwSort, p2, r2) else nextToken fl p2 r2
      else if c.isDigit then
        let (ds, p2, r2) := readNumberChars pos (c :: cs2)
        (.number (parseNumLit ds), p2, r2)
      else if c.isAlpha || c = '_' then
        let (idc, p2, r2) := readIdentChars pos (c :: cs2)
        (keywordOrIdent (String.mk idc), p2, r2)
      else if c = '+' then (.plus, pos + 1, cs2)
      else if c = '-' then (.minus, pos + 1, cs2)
      else if c = '*' then (.star, pos + 1, cs2)
      else if c = '/' then (.slash, pos + 1, cs2)
      else if c = '^' then (.power, pos + 1, cs2)
      else if c = '=' then (.equals, pos + 1, cs2)
      else if c = '(' then (.lparen, pos + 1, cs2)
      else if c = ')' then (.rparen, pos + 1, cs2)
      else if c = '[' then (.lbracket, pos + 1, cs2)
      else if c = ']' then (.rbracket, pos + 1, cs2)
      else if c = ',' then (.comma, pos + 1, cs2)
      else if c = ';' then (.semicolon, pos + 1, cs2)
      else if c = '\n' then (.newline, pos + 1, cs2)
      else nextToken fl (pos + 1) cs2

/-- The `Lexer::tokenize` loop (src/src/lexer.rs lines 228-239).  Every
non-`Eof` token consumes at least one character, so `length + 1` fuel always
suffices. -/
def tokenizeGo : Nat → Nat → List Char → List Token
  | 0, _, _ => []
  | fl + 1, pos, cs =>
    let (t, p2, r2) := nextToken (cs.length + 1) pos cs
    if t = .eof then [Token.eof] else t :: tokenizeGo fl p2 r2

/-- `Lexer::new` + `Lexer::tokenize`. -/
def tokenize (input : List Char) : List Token :=
  tokenizeGo (input.length + 1) 0 input

/-- The parser's current token: `Eof` past the end of the token list. -/
def curTok : List Token → Token
  | [] => .eof
  | t :: _ => t

/-- `Parser::expect` (src/src/parser.rs lines 36-43).  The source's
expected/actual error text is abbreviated; no claim inspects parse-error
text. -/
def expectTok (t : Token) (ts : List Token) : Option (Except String (List Token)) :=
  if curTok ts = t then some (Except.ok ts.tail)
  else some (Except.error "Unexpected token in place of expected token")

mutual

/-- `Parser::parse_expression` (src/src/parser.rs lines 168-170), fuelled:
every recursive descent step decrements the fuel, so any fuel beyond the
nesting depth of the input is enough. -/
def parseExpr : Nat → List Token → Option (Except String (Expr × List Token))
  | 0, _ => none
  | f + 1, ts => parseAdditive f ts

/-- `Parser::parse_additive` (src/src/parser.rs lines 172-200). -/
def parseAdditive : Nat → List Token → Option (Except String (Expr × List Token))
  | 0, _ => none
  | f + 1, ts => rbind (parseMultiplicative f ts) fun p => addLoop f p.1 p.2

/-- The accumulation loop of `parse_additive` (left-associative `+ -`). -/
def addLoop : Nat → Expr → List Token → Option (Except String (Expr × List Token))
  | 0, _, _ => none
  | f + 1, left, ts =>
    match curTok ts with
    | .plus =>
      rbind (parseMultiplicative f ts.tail) fun p =>
        addLoop f (.binop .add left p.1) p.2
    | .minus =>
      rbind (parseMultiplicative f ts.tail) fun p =>
        addLoop f (.binop .sub left p.1) p.2
    | _ => some (Except.ok (left, ts))

/-- `Parser::parse_multiplicative` (src/src/parser.rs lines 202-230). -/
def parseMultiplicative : Nat → List Token → Option (Except String (Expr × List Token))
  | 0, _ => none
  | f + 1, ts => rbind (parsePow f ts) fun p => mulLoop f p.1 p.2

/-- The accumulation loop of `parse_multiplicative` (left-associative `* /`). -/
def mulLoop : Nat → Expr → List Token → Option (Except String (Expr × List Token))
  | 0, _, _ => none
  | f + 1, left, ts =>
    match curTok ts with
    | .star =>
      rbind (parsePow f ts.tail) fun p =>
        mulLoop f (.binop .mul left p.1) p.2
    | .slash =>
      rbind (parsePow f ts.tail) fun p =>
        mulLoop f (.binop .div left p.1) p.2
    | _ => some (Except.ok (left, ts))

/-- `Parser::parse_power` (src/src/parser.rs lines 232-246): right-associative
by recursing into itself for the right operand. -/
def parsePow : Nat → List Token → Option (Except String (Expr × List Token))
  | 0, _ => none
  | f + 1, ts =>
    rbind (parseUnary f ts) fun p =>
      if curTok p.2 = .power then
        rbind (parsePow f p.2.tail) fun q =>
          some (Except.ok (.binop .pow p.1 q.1, q.2))
      else some (Except.ok p)

/-- `Parser::parse_unary` (src/src/parser.rs lines 248-260). -/
def parseUnary : Nat → List Token → Option (Except String (Expr × List Token))
  | 0, _ => none
  | f + 1, ts =>
    match curTok ts with
    | .minus =>
      rbind (parseUnary f ts.tail) fun p =>
        some (Except.ok (.unop .neg p.1, p.2))
    | _ => parsePrimary f ts

/-- `Parser::parse_primary` (src/src/parser.rs lines 262-303). -/
def parsePrimary : Nat → List Token → Option (Except String (Expr × List Token))
  | 0, _ => none
  | f + 1, ts =>
    match curTok ts with
    | .number n => some (Except.ok (.number n, ts.tail))
    | .ident name =>
      let ts1 := ts.tail
      if curTok ts1 = .lparen then
        let ts2 := ts1.tail
        if curTok ts2 = .rparen then some (Except.ok (.fcall name [], ts2.tail))
        else
          rbind (parseArgs f ts2) fun p =>
            rbind (expectTok .rparen p.2) fun ts3 =>
              some (Except.ok (.fcall name p.1, ts3))
      else some (Except.ok (.symbol name, ts1))
    | .lparen =>
      rbind (parseExpr f ts.tail) fun p =>
        rbind (expectTok .rparen p.2) fun ts2 => some (Except.ok (p.1, ts2))
    | _ => some (Except.error "Unexpected token")

/-- The comma-separated argument loop of `parse_primary`
(src/src/parser.rs lines 278-287). -/
def parseArgs : Nat → List Token → Option (Except String (List Expr × List Token))
  | 0, _ => none
  | f + 1, ts =>
    rbind (parseExpr f ts) fun p =>
      match curTok p.2 with
      | .comma =>
        rbind (parseArgs f p.2.tail) fun q => some (Except.ok (p.1 :: q.1, q.2))
      | _ => some (Except.ok ([p.1], p.2))

end

/-- The identifier-list loop of `Parser::parse_symbols_decl`
(src/src/parser.rs lines 69-94). -/
def parseSymList : Nat → List Token → Option (Except String (List String × List Token))
  | 0, _ => none
  | f + 1, ts =>
    match curTok ts with
    | .ident name =>
      if curTok ts.tail = .comma then
        rbind (parseSymList f ts.tail.tail) fun p =>
          some (Except.ok (name :: p.1, p.2))
      else some (Except.ok ([name], ts.tail))
    | _ => some (Except.error "Expected identifier")

/-- The skip-newlines loop at the top of `Parser::parse_statement`. -/
def dropNewlines : List Token → List Token
  | .newline :: rest => dropNewlines rest
  | ts => ts

/-- `Parser::parse_statement` (src/src/parser.rs lines 45-67).  Consuming the
optional trailing semicolon only moves the parser's internal cursor and never
affects the returned `Statement`, so it is not modelled. -/
def parseStmt (f : Nat) (ts0 : List Token) : Option (Except String Statement) :=
  let ts := dropNewlines ts0
  match curTok ts with
  | .kwSymbols =>
    rbind (parseSymList f ts.tail) fun p => some (Except.ok (.symbolsDecl p.1))
  | .kwExpression =>
    match curTok ts.tail with
    | .ident name =>
      rbind (expectTok .equals ts.tail.tail) fun ts2 =>
        rbind (parseExpr f ts2) fun p =>
          some (Except.ok (.expressionDecl name p.1))
    | _ => some (Except.error "Expected identifier after Expression keyword")
  | .kwLocal =>
    match curTok ts.tail with
    | .ident name =>
      rbind (expectTok .equals ts.tail.tail) fun ts2 =>
        rbind (parseExpr f ts2) fun p =>
          some (Except.ok (.localDecl name p.1))
    | _ => some (Except.error "Expected identifier after Local keyword")
  | .kwId =>
    rbind (parseExpr f ts.tail) fun p =>
      rbind (expectTok .equals p.2) fun ts2 =>
        rbind (parseExpr f ts2) fun q => some (Except.ok (.idRule p.1 q.1))
  | .kwPrint =>
    match curTok ts.tail with
    | .ident name => some (Except.ok (.print name))
    | _ => some (Except.error "Expected identifier after Print keyword")
  | .kwSort => some (Except.ok .sort)
  | .eof => some (Except.error "End of input")
  | _ => rbind (parseExpr f ts) fun p => some (Except.ok (.evalExpr p.1))

/-- `Parser::new` + `Parser::parse_statement` on raw text: the `parse` half of
the core's external interface.  The fuel comfortably covers the recursive
descent depth of any token list of this length. -/
def parseInput (input : List Char) : Option (Except String Statement) :=
  let ts := tokenize input
  parseStmt (10 * ts.length + 10) ts

mutual

/-- Expression size: every node counts 1; used to bound the fuel a
re-simplification needs. -/
def esize : Expr → Nat
  | .number _ => 1
  | .symbol _ => 1
  | .binop _ l r => esize l + esize r + 1
  | .unop _ x => esize x + 1
  | .fcall _ args => esizeList args + 1

def esizeList : List Expr → Nat
  | [] => 0
  | a :: as => esize a + esizeList as

end

/-- Whether an expression is a `Number` leaf. -/
def isNumberB : Expr → Bool
  | .number _ => true
  | _ => false

/-- Whether an expression equals the numeric literal `q`. -/
def isNumEq (e : Expr) (q : ℚ) : Bool :=
  match e with
  | .number n => decide (n = q)
  | _ => false

/-- Whether an argument list is exactly one numeric literal
(the built-in-folding condition of src/src/evaluator.rs lines 166-167). -/
def isSingleNumber : List Expr → Bool
  | [.number _] => true
  | _ => false

mutual

/-- Normal forms of `simplify` under table `t`: every branch of `simplify`
that returns a tree unchanged is characterised here, so a simplified
expression re-simplifies to itself. -/
def IsSimplifiedB (t : List (String × Expr)) : Expr → Bool
  | .number _ => true
  | .symbol name => (tblGet t name).isNone
  | .binop op l r =>
    IsSimplifiedB t l && IsSimplifiedB t r && !(isNumberB l && isNumberB r) &&
    (match op with
     | .add => !(isNumEq r 0 || isNumEq l 0)
     | .mul => !(isNumEq r 0 || isNumEq l 0 || isNumEq r 1 || isNumEq l 1)
     | .pow => !(isNumEq r 0 || isNumEq r 1)
     | _ => true)
  | .unop _ x => IsSimplifiedB t x && !isNumberB x
  | .fcall name args =>
    IsSimplifiedListB t args && !(isBuiltin name && isSingleNumber args)

/-- `IsSimplifiedB` over an argument list. -/
def IsSimplifiedListB (t : List (String × Expr)) : List Expr → Bool
  | [] => true
  | a :: as => IsSimplifiedB t a && IsSimplifiedListB t as

end

/-- The observable part of an evaluation outcome apart from the `symbols`
table: the `expressions` table, the `rules` list, and the display/error
result. -/
def obsOf : Option (EvalState × Except String String) →
    Option (List (String × Expr) × List (Expr × Expr) × Except String String)
  | none => none
  | some (st, out) => some (st.expressions, st.rules, out)

/-- A concrete interpretation of the transcendental built-ins, used to
instantiate witnesses and counterexamples; none of their computations reaches
a built-in call. -/
def zeroF : String → ℚ → ℚ := fun _ _ => 0

/-- C7: for every name, right-hand side and session state, evaluating
`ExpressionDecl{name, expr}` and `LocalDecl{name, expr}` are observationally
identical — same resulting state (simplified right-hand side stored under the
name in `expressions`, `symbols` and `rules` untouched), same display text,
and the same error when simplification fails. -/
theorem expressionDecl_localDecl_equiv (F : String → ℚ → ℚ) (fuel : Nat)
    (st : EvalState) (name : String) (e : Expr) :
    evalStatement F fuel st (.expressionDecl name e)
      = evalStatement F fuel st (.localDecl name e) ∧
    (∀ st2 out,
      evalStatement F fuel st (.expressionDecl name e) = some (st2, out) →
      st2.symbols = st.symbols ∧ st2.rules = st.rules) := by
  constructor
  · rfl
  · intro st2 out h
    simp only [evalStatement] at h
    split at h
    · exact Option.noConfusion h
    · simp only [Option.some.injEq, Prod.mk.injEq] at h
      obtain ⟨h1, _⟩ := h
      subst h1
      exact ⟨rfl, rfl⟩
    · simp only [Option.some.injEq, Prod.mk.injEq] at h
      obtain ⟨h1, _⟩ := h
      subst h1
      exact ⟨rfl, rfl⟩

/-- C7 witness: concrete instance of the unchanged-tables part. -/
theorem expressionDecl_localDecl_equiv_witness :
    evalStatement zeroF 2 ⟨[], [], []⟩ (.expressionDecl "a" (.number 1))
      = some (⟨[], [("a", .number 1)], []⟩, Except.ok "a = 1") ∧
    ((⟨[], [("a", .number 1)], []⟩ : EvalState).symbols
        = (⟨[], [], []⟩ : EvalState).symbols ∧
      (⟨[], [("a", .number 1)], []⟩ : EvalState).rules
        = (⟨[], [], []⟩ : EvalState).rules) :=
  ⟨by rfl,
    (expressionDecl_localDecl_equiv zeroF 2 ⟨[], [], []⟩ "a" (.number 1)).2
      ⟨[], [("a", .number 1)], []⟩ (Except.ok "a = 1") (by rfl)⟩

/-- C2: a statement whose evaluation returns an error leaves all three
session tables exactly as they were — mutation only happens as the side
effect of a successfully completed statement, including the batch `Sort`. -/
theorem evalStatement_error_preserves_state (F : String → ℚ → ℚ) (fuel : Nat)
    (st : EvalState) (stmt : Statement) (st2 : EvalState) (m : String)
    (h : evalStatement F fuel st stmt = some (st2, Except.error m)) :
    st2 = st := by
  cases stmt <;> simp only [evalStatement] at h <;> (try split at h) <;>
    simp_all

/-- C2 witness: `Print` of an undefined name errors and preserves the state. -/
theorem evalStatement_error_preserves_state_witness :
    evalStatement zeroF 1 ⟨[], [], []⟩ (.print "q")
      = some (⟨[], [], []⟩,
          Except.error ("Expression " ++ quoteCh ++ "q" ++ quoteCh ++ " not found")) ∧
    (⟨[], [], []⟩ : EvalState) = (⟨[], [], []⟩ : EvalState) :=
  ⟨by rfl,
    evalStatement_error_preserves_state zeroF 1 ⟨[], [], []⟩ (.print "q")
      ⟨[], [], []⟩ ("Expression " ++ quoteCh ++ "q" ++ quoteCh ++ " not found")
      (by rfl)⟩

/-- C8: the structural matcher never matches when either side is a `UnOp` or
`FunctionCall`; a `Symbol` pattern matches exactly the identical `Symbol`
candidate, with an empty binding map; `Number` leaves match exactly when
their absolute difference is below the `1e-10` tolerance. -/
theorem matchPattern_shape :
    (∀ (k : UnOpKind) (x p : Expr), matchPattern (.unop k x) p = none) ∧
    (∀ (k : UnOpKind) (x e : Expr), matchPattern e (.unop k x) = none) ∧
    (∀ (n : String) (args : List Expr) (p : Expr),
      matchPattern (.fcall n args) p = none) ∧
    (∀ (n : String) (args : List Expr) (e : Expr),
      matchPattern e (.fcall n args) = none) ∧
    (∀ (s : String) (e : Expr),
      matchPattern e (.symbol s) = if e = .symbol s then some [] else none) ∧
    (∀ n1 n2 : ℚ, matchPattern (.number n1) (.number n2)
      = if |n1 - n2| < tol then some [] else none) := by
  refine ⟨?_, ?_, ?_, ?_, ?_, ?_⟩
  · intro k x p; cases p <;> rfl
  · intro k x e; cases e <;> rfl
  · intro n args p; cases p <;> rfl
  · intro n args e; cases e <;> rfl
  · intro s e; cases e <;> simp [matchPattern]
  · intro n1 n2; rfl

/-- C9: folding `Div` on two literals errors with "Division by zero" exactly
when the divisor is `0`, and otherwise yields the quotient literal; an error
from a nested operand propagates unchanged (short-circuit) through enclosing
`BinOp`/`UnOp` positions. -/
theorem div_fold_and_error_prop (F : String → ℚ → ℚ)
    (t : List (String × Expr)) :
    (∀ (fuel : Nat) (a b : ℚ),
      simplify F t (fuel + 2) (.binop .div (.number a) (.number b))
        = if b = 0 then some (Except.error "Division by zero")
          else some (Except.ok (.number (a / b)))) ∧
    (∀ (fuel : Nat) (op : BinOpKind) (l r : Expr) (m : String),
      simplify F t fuel l = some (Except.error m) →
      simplify F t (fuel + 1) (.binop op l r) = some (Except.error m)) ∧
    (∀ (fuel : Nat) (op : BinOpKind) (l r l2 : Expr) (m : String),
      simplify F t fuel l = some (Except.ok l2) →
      simplify F t fuel r = some (Except.error m) →
      simplify F t (fuel + 1) (.binop op l r) = some (Except.error m)) ∧
    (∀ (fuel : Nat) (op : UnOpKind) (x : Expr) (m : String),
      simplify F t fuel x = some (Except.error m) →
      simplify F t (fuel + 1) (.unop op x) = some (Except.error m)) ∧
    (∀ (fuel : Nat) (nm : String) (a : Expr) (rest : List Expr) (m : String),
      simplify F t fuel a = some (Except.error m) →
      simplify F t (fuel + 1) (.fcall nm (a :: rest))
        = some (Except.error m)) ∧
    (∀ (fuel : Nat) (st : EvalState) (e : Expr) (m : String),
      simplify F st.expressions fuel e = some (Except.error m) →
      evalStatement F fuel st (.evalExpr e) = some (st, Except.error m)) := by
  refine ⟨?_, ?_, ?_, ?_, ?_, ?_⟩
  · intro fuel a b
    show simplify F t (fuel + 1 + 1) _ = _
    simp [simplify, rbind, simpBinOp, foldNum]
  · intro fuel op l r m h
    simp [simplify, rbind, h]
  · intro fuel op l r l2 m hl hr
    simp [simplify, rbind, hl, hr]
  · intro fuel op x m h
    simp [simplify, rbind, h]
  · intro fuel nm a rest m h
    simp [simplify, simplifyArgs, rbind, h]
  · intro fuel st e m h
    simp [evalStatement, h]

/-- C9 witness: `1/0` errors, `1/2` folds, and the error of `1/0` propagates
through an enclosing addition and negation. -/
theorem div_fold_and_error_prop_witness :
    (simplify zeroF [] 2 (.binop .div (.number 1) (.number 0))
      = some (Except.error "Division by zero")) ∧
    (simplify zeroF [] 2 (.binop .div (.number 1) (.number 2))
      = some (Except.ok (.number (1 / 2)))) ∧
    (simplify zeroF [] 3
        (.binop .add (.binop .div (.number 1) (.number 0)) (.number 5))
      = some (Except.error "Division by zero")) ∧
    (simplify zeroF [] 3 (.unop .neg (.binop .div (.number 1) (.number 0)))
      = some (Except.error "Division by zero")) ∧
    (simplify zeroF [] 3 (.fcall "sin" [.binop .div (.number 1) (.number 0)])
      = some (Except.error "Division by zero")) ∧
    (evalStatement zeroF 2 ⟨[], [], []⟩
        (.evalExpr (.binop .div (.number 1) (.number 0)))
      = some (⟨[], [], []⟩, Except.error "Division by zero")) := by
  have h := div_fold_and_error_prop zeroF []
  refine ⟨?_, ?_, ?_, ?_, ?_, ?_⟩
  · have := h.1 0 1 0
    simpa using this
  · have := h.1 0 1 2
    simpa using this
  · exact h.2.1 2 .add (.binop .div (.number 1) (.number 0)) (.number 5)
      "Division by zero" (by have := h.1 0 1 0; simpa using this)
  · exact h.2.2.2.1 2 .neg (.binop .div (.number 1) (.number 0))
      "Division by zero" (by have := h.1 0 1 0; simpa using this)
  · exact h.2.2.2.2.1 2 "sin" (.binop .div (.number 1) (.number 0)) []
      "Division by zero" (by have := h.1 0 1 0; simpa using this)
  · exact h.2.2.2.2.2 2 ⟨[], [], []⟩ (.binop .div (.number 1) (.number 0))
      "Division by zero" (by have := h.1 0 1 0; simpa using this)

/-- Unfolding equation of `simplify` on a `Number`. -/
theorem simplify_succ_number (F : String → ℚ → ℚ) (t : List (String × Expr))
    (f : Nat) (n : ℚ) :
    simplify F t (f + 1) (.number n) = some (Except.ok (.number n)) := rfl

/-- Unfolding equation of `simplify` on a `Symbol`. -/
theorem simplify_succ_symbol (F : String → ℚ → ℚ) (t : List (String × Expr))
    (f : Nat) (name : String) :
    simplify F t (f + 1) (.symbol name)
      = (match tblGet t name with
         | some v => simplify F t f v
         | none => some (Except.ok (.symbol name))) := rfl

/-- Unfolding equation of `simplify` on a `BinOp`. -/
theorem simplify_succ_binop (F : String → ℚ → ℚ) (t : List (String × Expr))
    (f : Nat) (op : BinOpKind) (l r : Expr) :
    simplify F t (f + 1) (.binop op l r)
      = rbind (simplify F t f l) (fun l2 =>
          rbind (simplify F t f r) (fun r2 => simpBinOp op l2 r2)) := rfl

/-- Unfolding equation of `simplify` on a `UnOp`. -/
theorem simplify_succ_unop (F : String → ℚ → ℚ) (t : List (String × Expr))
    (f : Nat) (op : UnOpKind) (x : Expr) :
    simplify F t (f + 1) (.unop op x)
      = rbind (simplify F t f x) (fun x2 =>
          match x2 with
          | .number n =>
            some (Except.ok (.number (match op with | .neg => -n)))
          | _ => some (Except.ok (.unop op x2))) := rfl

/-- Unfolding equation of `simplify` on a `FunctionCall`. -/
theorem simplify_succ_fcall (F : String → ℚ → ℚ) (t : List (String × Expr))
    (f : Nat) (name : String) (args : List Expr) :
    simplify F t (f + 1) (.fcall name args)
      = rbind (simplifyArgs (fun a => simplify F t f a) args) (fun args2 =>
          if isBuiltin name then
            match args2 with
            | [.number n] => some (Except.ok (.number (F name n)))
            | _ => some (Except.ok (.fcall name args2))
          else some (Except.ok (.fcall name args2))) := rfl

/-- C4: with `x'` the simplified form of a sub-expression `x`, the simplifier
satisfies `simplify(x+0) = x'`, `simplify(0+x) = x'`, `simplify(x*0) = 0`,
`simplify(x*1) = x'`, `simplify(x^0) = 1` and `simplify(x^1) = x'`, whether
the identity is realised by constant folding (numeric `x'`) or by the
algebraic-identity pass. -/
theorem simplify_identities (F : String → ℚ → ℚ) (t : List (String × Expr))
    (fuel : Nat) (x x' : Expr)
    (h : simplify F t fuel x = some (Except.ok x')) :
    simplify F t (fuel + 1) (.binop .add x (.number 0))
        = some (Except.ok x') ∧
    simplify F t (fuel + 1) (.binop .add (.number 0) x)
        = some (Except.ok x') ∧
    simplify F t (fuel + 1) (.binop .mul x (.number 0))
        = some (Except.ok (.number 0)) ∧
    simplify F t (fuel + 1) (.binop .mul x (.number 1))
        = some (Except.ok x') ∧
    simplify F t (fuel + 1) (.binop .pow x (.number 0))
        = some (Except.ok (.number 1)) ∧
    simplify F t (fuel + 1) (.binop .pow x (.number 1))
        = some (Except.ok x') := by
  cases fuel with
  | zero => exact absurd h (by simp [simplify])
  | succ g =>
    refine ⟨?_, ?_, ?_, ?_, ?_, ?_⟩ <;>
      · rw [simplify_succ_binop]
        simp only [h, simplify_succ_number, rbind]
        cases x' <;>
          simp [simpBinOp, foldNum, algSimp, powf, Rat.num_ofNat, Rat.den_ofNat]

/-- C4 witness: the six identities at the concrete sub-expression `y` (an
unbound symbol, which simplifies to itself). -/
theorem simplify_identities_witness :
    simplify zeroF [] 1 (.symbol "y") = some (Except.ok (.symbol "y")) ∧
    (simplify zeroF [] 2 (.binop .add (.symbol "y") (.number 0))
        = some (Except.ok (.symbol "y")) ∧
      simplify zeroF [] 2 (.binop .add (.number 0) (.symbol "y"))
        = some (Except.ok (.symbol "y")) ∧
      simplify zeroF [] 2 (.binop .mul (.symbol "y") (.number 0))
        = some (Except.ok (.number 0)) ∧
      simplify zeroF [] 2 (.binop .mul (.symbol "y") (.number 1))
        = some (Except.ok (.symbol "y")) ∧
      simplify zeroF [] 2 (.binop .pow (.symbol "y") (.number 0))
        = some (Except.ok (.number 1)) ∧
      simplify zeroF [] 2 (.binop .pow (.symbol "y") (.number 1))
        = some (Except.ok (.symbol "y"))) :=
  ⟨rfl, simplify_identities zeroF [] 1 (.symbol "y") (.symbol "y") rfl⟩

/-- The expression reached by `topLoop` is the (early-stopping) `n`-fold
first-match rewrite: the loop performs at most `n` top-level rewrites. -/
theorem topLoop_fst (rules : List (Expr × Expr)) :
    ∀ (n : Nat) (e : Expr), (topLoop rules n e).1 = iterRewrite rules n e := by
  intro n
  induction n with
  | zero => intro e; rfl
  | succ k ih =>
    intro e
    simp only [topLoop, iterRewrite]
    cases hf : findMatch rules e with
    | some e2 => simpa using ih e2
    | none => rfl

/-- C3: the top-level rewrite pass always terminates within the fixed
100-iteration cap — its result is the 100-step-bounded iteration of the
first-match rewrite, for every rule set and expression — and on the two-rule
swap set {a→b, b→a}, starting from `a`, the loop runs to the cap exactly
(flag `false`) and `apply_rules` returns the simplification of the
expression reached there, instead of looping forever. -/
theorem applyRules_cap_and_cycle (F : String → ℚ → ℚ)
    (t : List (String × Expr)) (fuel : Nat) (a b : String) (hab : a ≠ b) :
    (∀ (rules : List (Expr × Expr)) (e : Expr),
      (topLoop rules 100 e).1 = iterRewrite rules 100 e) ∧
    topLoop [(.symbol a, .symbol b), (.symbol b, .symbol a)] 100 (.symbol a)
      = (.symbol a, false) ∧
    applyRules F t fuel [(.symbol a, .symbol b), (.symbol b, .symbol a)]
        (.symbol a)
      = simplify F t fuel (.symbol a) := by
  have hfa : findMatch [(Expr.symbol a, Expr.symbol b),
      (Expr.symbol b, Expr.symbol a)] (.symbol a) = some (.symbol b) := by
    simp [findMatch, matchPattern, substitute, tblGet]
  have hfb : findMatch [(Expr.symbol a, Expr.symbol b),
      (Expr.symbol b, Expr.symbol a)] (.symbol b) = some (.symbol a) := by
    simp [findMatch, matchPattern, substitute, tblGet, Ne.symm hab]
  have step2 : ∀ n, topLoop [(Expr.symbol a, Expr.symbol b),
      (Expr.symbol b, Expr.symbol a)] (n + 2) (Expr.symbol a)
      = topLoop [(Expr.symbol a, Expr.symbol b),
          (Expr.symbol b, Expr.symbol a)] n (Expr.symbol a) := by
    intro n
    show topLoop _ (n + 1 + 1) _ = _
    simp only [topLoop, hfa, hfb]
  have heven : ∀ k, topLoop [(Expr.symbol a, Expr.symbol b),
      (Expr.symbol b, Expr.symbol a)] (2 * k) (Expr.symbol a)
      = (Expr.symbol a, false) := by
    intro k
    induction k with
    | zero => rfl
    | succ m ih =>
      have h2 : 2 * (m + 1) = 2 * m + 2 := by ring
      rw [h2, step2 (2 * m), ih]
  have h100 : topLoop [(Expr.symbol a, Expr.symbol b),
      (Expr.symbol b, Expr.symbol a)] 100 (Expr.symbol a)
      = (Expr.symbol a, false) := by
    have := heven 50
    norm_num at this
    exact this
  refine ⟨fun rules e => topLoop_fst rules 100 e, h100, ?_⟩
  simp only [applyRules, h100]

/-- C3 witness: the swap cycle at concrete names. -/
theorem applyRules_cap_and_cycle_witness :
    ("a" : String) ≠ "b" ∧
    ((∀ (rules : List (Expr × Expr)) (e : Expr),
        (topLoop rules 100 e).1 = iterRewrite rules 100 e) ∧
      topLoop [(.symbol "a", .symbol "b"), (.symbol "b", .symbol "a")] 100
          (.symbol "a")
        = (.symbol "a", false) ∧
      applyRules zeroF [] 1
          [(.symbol "a", .symbol "b"), (.symbol "b", .symbol "a")]
          (.symbol "a")
        = simplify zeroF [] 1 (.symbol "a")) :=
  ⟨by decide, applyRules_cap_and_cycle zeroF [] 1 "a" "b" (by decide)⟩

/-- C10: the `symbols` table is semantically inert — two states differing
only in `symbols` produce the same display text or error and the same
resulting `expressions` and `rules` tables on every statement; no evaluation
path reads `symbols`. -/
theorem symbols_table_inert (F : String → ℚ → ℚ) (fuel : Nat)
    (st : EvalState) (syms2 : List (String × Expr)) (stmt : Statement) :
    obsOf (evalStatement F fuel { st with symbols := syms2 } stmt)
      = obsOf (evalStatement F fuel st stmt) := by
  obtain ⟨s1, ex, ru⟩ := st
  cases stmt with
  | symbolsDecl syms => rfl
  | expressionDecl name e =>
    simp only [evalStatement]
    cases simplify F ex fuel e with
    | none => rfl
    | some r => cases r with
      | error m => rfl
      | ok s => rfl
  | localDecl name e =>
    simp only [evalStatement]
    cases simplify F ex fuel e with
    | none => rfl
    | some r => cases r with
      | error m => rfl
      | ok s => rfl
  | idRule p r => rfl
  | print name =>
    simp only [evalStatement]
    cases tblGet ex name with
    | none => rfl
    | some e => rfl
  | sort =>
    simp only [evalStatement]
    cases sortTable F ex fuel ru ex with
    | none => rfl
    | some r => cases r with
      | error m => rfl
      | ok u => rfl
  | evalExpr e =>
    simp only [evalStatement]
    cases simplify F ex fuel e with
    | none => rfl
    | some r => cases r with
      | error m => rfl
      | ok s => rfl

/-- C5: the parser gives `2 + 3 * 4` the tree `2 + (3*4)` which evaluates to
`14`, `(2 + 3) * 4` the tree `(2+3)*4` which evaluates to `20`, and
`2 ^ 3 ^ 2` the right-associated tree `2^(3^2)` which evaluates to `512`, on
a fresh session — additive < multiplicative < power precedence with
right-associative `^`. -/
theorem parser_precedence_scenarios (F : String → ℚ → ℚ) :
    parseInput "2 + 3 * 4".data
      = some (Except.ok (.evalExpr
          (.binop .add (.number 2) (.binop .mul (.number 3) (.number 4))))) ∧
    evalStatement F 3 ⟨[], [], []⟩
        (.evalExpr (.binop .add (.number 2) (.binop .mul (.number 3) (.number 4))))
      = some (⟨[], [], []⟩, Except.ok "14") ∧
    parseInput "(2 + 3) * 4".data
      = some (Except.ok (.evalExpr
          (.binop .mul (.binop .add (.number 2) (.number 3)) (.number 4)))) ∧
    evalStatement F 3 ⟨[], [], []⟩
        (.evalExpr (.binop .mul (.binop .add (.number 2) (.number 3)) (.number 4)))
      = some (⟨[], [], []⟩, Except.ok "20") ∧
    parseInput "2 ^ 3 ^ 2".data
      = some (Except.ok (.evalExpr
          (.binop .pow (.number 2) (.binop .pow (.number 3) (.number 2))))) ∧
    evalStatement F 3 ⟨[], [], []⟩
        (.evalExpr (.binop .pow (.number 2) (.binop .pow (.number 3) (.number 2))))
      = some (⟨[], [], []⟩, Except.ok "512") := by
  have h14 : simplify F []
      3 (.binop .add (.number 2) (.binop .mul (.number 3) (.number 4)))
      = some (Except.ok (.number 14)) := by
    simp only [simplify_succ_binop, simplify_succ_number, rbind, simpBinOp,
      foldNum]
    norm_num
  have h20 : simplify F []
      3 (.binop .mul (.binop .add (.number 2) (.number 3)) (.number 4))
      = some (Except.ok (.number 20)) := by
    simp only [simplify_succ_binop, simplify_succ_number, rbind, simpBinOp,
      foldNum]
    norm_num
  have h512 : simplify F []
      3 (.binop .pow (.number 2) (.binop .pow (.number 3) (.number 2)))
      = some (Except.ok (.number 512)) := by
    simp only [simplify_succ_binop, simplify_succ_number, rbind, simpBinOp,
      foldNum, powf, Rat.den_ofNat, Rat.num_ofNat]
    norm_num
  refine ⟨rfl, ?_, rfl, ?_, rfl, ?_⟩
  · simp only [evalStatement, h14]
    rfl
  · simp only [evalStatement, h20]
    rfl
  · simp only [evalStatement, h512]
    rfl

/-- `nextToken` at the end of input yields `Eof` without moving. -/
theorem nextToken_nil (f pos : Nat) : nextToken f pos [] = (.eof, pos, []) := by
  cases f with
  | zero => rfl
  | succ fl => rfl

/-- When the comment guard fires, `next_token` skips the comment and
retries. -/
theorem nextToken_comment_start (fl : Nat) (rest : List Char) :
    nextToken (fl + 1) 0 ('*' :: ' ' :: rest)
      = nextToken fl (skipComment 0 ('*' :: ' ' :: rest)).1
          (skipComment 0 ('*' :: ' ' :: rest)).2 := rfl

/-- `skip_comment` consumes a newline-free remainder entirely. -/
theorem skipComment_all (pos : Nat) (l : List Char) (h : ∀ c ∈ l, c ≠ '\n') :
    skipComment pos l = (pos + l.length, []) := by
  induction l generalizing pos with
  | nil => simp [skipComment]
  | cons c cs ih =>
    have hc : c ≠ '\n' := h c (by simp)
    have h2 := ih (pos + 1) (fun x hx => h x (by simp [hx]))
    simp only [skipComment, hc, if_false, h2, List.length_cons]
    rw [show pos + (cs.length + 1) = pos + 1 + cs.length by omega]

/-- `skip_comment` stops at the first newline, leaving it unconsumed. -/
theorem skipComment_append (pos : Nat) (l after : List Char)
    (h : ∀ c ∈ l, c ≠ '\n') :
    skipComment pos (l ++ '\n' :: after) = (pos + l.length, '\n' :: after) := by
  induction l generalizing pos with
  | nil => simp [skipComment]
  | cons c cs ih =>
    have hc : c ≠ '\n' := h c (by simp)
    have h2 := ih (pos + 1) (fun x hx => h x (by simp [hx]))
    simp only [List.cons_append, skipComment, hc, if_false, List.length_cons]
    rw [show pos + (cs.length + 1) = pos + 1 + cs.length by omega]
    exact h2

/-- A `'* '`-prefixed input with no newline lexes directly to `Eof`. -/
theorem nextToken_comment_eof (fl : Nat) (rest : List Char)
    (h : ∀ c ∈ rest, c ≠ '\n') :
    nextToken (fl + 1) 0 ('*' :: ' ' :: rest) = (.eof, rest.length + 2, []) := by
  have hall : ∀ c ∈ ('*' :: ' ' :: rest), c ≠ '\n' := by
    intro c hc
    simp only [List.mem_cons] at hc
    rcases hc with rfl | rfl | hc
    · decide
    · decide
    · exact h c hc
  have hsc : skipComment 0 ('*' :: ' ' :: rest) = (rest.length + 2, []) := by
    have := skipComment_all 0 ('*' :: ' ' :: rest) hall
    have h0 : (0 : Nat) + ('*' :: ' ' :: rest).length = rest.length + 2 := by
      simp only [List.length_cons]
      omega
    rw [h0] at this
    exact this
  rw [nextToken_comment_start, hsc, nextToken_nil]

/-- A `'* '`-prefixed input lexes to the token of its first newline: every
commented character before it produces no token. -/
theorem nextToken_comment_newline (fl : Nat) (before after : List Char)
    (h : ∀ c ∈ before, c ≠ '\n') :
    nextToken (fl + 2) 0 ('*' :: ' ' :: (before ++ '\n' :: after))
      = (.newline, before.length + 3, after) := by
  have hall : ∀ c ∈ ('*' :: ' ' :: before), c ≠ '\n' := by
    intro c hc
    simp only [List.mem_cons] at hc
    rcases hc with rfl | rfl | hc
    · decide
    · decide
    · exact h c hc
  have hsc : skipComment 0 ('*' :: ' ' :: (before ++ '\n' :: after))
      = (before.length + 2, '\n' :: after) := by
    have := skipComment_append 0 ('*' :: ' ' :: before) after hall
    have h0 : (0 : Nat) + ('*' :: ' ' :: before).length = before.length + 2 := by
      simp only [List.length_cons]
      omega
    simp only [List.cons_append] at this
    rw [h0] at this
    exact this
  have hstep : nextToken (fl + 1) (before.length + 1 + 1) ('\n' :: after)
      = (.newline, before.length + 1 + 2, after) := rfl
  show nextToken (fl + 1 + 1) 0 _ = _
  rw [nextToken_comment_start, hsc]
  rw [show before.length + 2 = before.length + 1 + 1 by omega]
  rw [hstep]

/-- A leading `*` not followed by a space lexes as `Star`. -/
theorem nextToken_star_nospace (fl : Nat) (rest : List Char)
    (h : rest.head? ≠ some ' ') :
    nextToken (fl + 1) 0 ('*' :: rest) = (.star, 1, rest) := by
  have hcs : isCommentStart 0 ('*' :: rest) = false := by
    simp [isCommentStart, h]
  have hws : skipWs 0 ('*' :: rest) = (0, '*' :: rest) := rfl
  simp only [nextToken, hws, hcs]
  rfl

/-- A `*` away from absolute position 0 lexes as `Star`. -/
theorem nextToken_star_notfirst (fl pos : Nat) (rest : List Char)
    (h : 1 ≤ pos) :
    nextToken (fl + 1) pos ('*' :: rest) = (.star, pos + 1, rest) := by
  have hcs : isCommentStart pos ('*' :: rest) = false := by
    simp [isCommentStart]
    omega
  have hws : skipWs pos ('*' :: rest) = (pos, '*' :: rest) := rfl
  simp only [nextToken, hws, hcs]
  rfl

/-- A `'* '`-prefixed newline-free input tokenizes to `[Eof]` alone: the
whole commented line produces no tokens. -/
theorem tokenize_comment_only (rest : List Char) (h : ∀ c ∈ rest, c ≠ '\n') :
    tokenize ('*' :: ' ' :: rest) = [Token.eof] := by
  have hnt : nextToken (('*' :: ' ' :: rest).length + 1) 0 ('*' :: ' ' :: rest)
      = (.eof, rest.length + 2, []) := by
    rw [show ('*' :: ' ' :: rest).length + 1 = rest.length + 2 + 1 from by
      simp]
    exact nextToken_comment_eof (rest.length + 2) rest h
  show tokenizeGo (('*' :: ' ' :: rest).length + 1) 0 ('*' :: ' ' :: rest) = _
  rw [show ('*' :: ' ' :: rest).length + 1 = rest.length + 2 + 1 from by
    simp]
  simp only [tokenizeGo, hnt, if_true]

/-- C6 counterexample: the input `*2\n3` has `*` as its first character, yet
the lexer does not treat it as a comment — it produces the Star token and the
tokens of the "commented" text, instead of skipping to the newline.  (The
comment guard additionally requires the `*` to be followed by a space.) -/
theorem lexer_comment_cex :
    tokenize ['*', '2', '\n', '3']
      = [.star, .number 2, .newline, .number 3, .eof] ∧
    tokenize ['*', '2', '\n', '3'] ≠ [.newline, .number 3, .eof] := by
  constructor
  · rfl
  · decide

/-- C6 amended: a `*` starts a comment only when it is the first character of
the whole input and is immediately followed by a space; such a comment skips
everything up to the first newline (no tokens from the commented text, lexing
resumes at the newline, or at `Eof` if none).  A `*` in any other position —
not the first character, or not followed by a space — is lexed as `Star`. -/
theorem lexer_comment_amended :
    (∀ rest : List Char, (∀ c ∈ rest, c ≠ '\n') →
      tokenize ('*' :: ' ' :: rest) = [Token.eof]) ∧
    (∀ (fl : Nat) (before after : List Char), (∀ c ∈ before, c ≠ '\n') →
      nextToken (fl + 2) 0 ('*' :: ' ' :: (before ++ '\n' :: after))
        = (.newline, before.length + 3, after)) ∧
    (∀ (fl : Nat) (rest : List Char), rest.head? ≠ some ' ' →
      nextToken (fl + 1) 0 ('*' :: rest) = (.star, 1, rest)) ∧
    (∀ (fl pos : Nat) (rest : List Char), 1 ≤ pos →
      nextToken (fl + 1) pos ('*' :: rest) = (.star, pos + 1, rest)) :=
  ⟨tokenize_comment_only, nextToken_comment_newline, nextToken_star_nospace,
    nextToken_star_notfirst⟩

/-- C6 amended witness: each part of the amended comment rule at concrete
inputs. -/
theorem lexer_comment_amended_witness :
    tokenize ['*', ' ', 'h'] = [Token.eof] ∧
    nextToken 5 0 ['*', ' ', 'h', '\n', '3'] = (.newline, 4, ['3']) ∧
    nextToken 3 0 ['*', '2'] = (.star, 1, ['2']) ∧
    nextToken 3 5 ['*', '2'] = (.star, 6, ['2']) :=
  ⟨lexer_comment_amended.1 ['h'] (by decide),
    lexer_comment_amended.2.1 3 ['h'] ['3'] (by decide),
    lexer_comment_amended.2.2.1 2 ['2'] (by decide),
    lexer_comment_amended.2.2.2 2 5 ['2'] (by decide)⟩

/-- C1 counterexample: with rules `[b → c]` (unchanged between the two runs)
and stored expressions `a = e`, `e = b`, the first `Sort` produces the table
`{a = b, e = c}` (the final `simplify` resolves `e` to `b`, which no rule has
been applied to), and the second `Sort` then rewrites that fresh `b` to `c`,
producing `{a = c, e = c}` — a different table, so `Sort` is not idempotent. -/
theorem sort_idempotence_cex :
    evalStatement zeroF 5
        ⟨[], [("a", .symbol "e"), ("e", .symbol "b")],
          [(.symbol "b", .symbol "c")]⟩ .sort
      = some (⟨[], [("a", .symbol "b"), ("e", .symbol "c")],
            [(.symbol "b", .symbol "c")]⟩,
          Except.ok "Sorted and rules applied") ∧
    evalStatement zeroF 5
        ⟨[], [("a", .symbol "b"), ("e", .symbol "c")],
          [(.symbol "b", .symbol "c")]⟩ .sort
      = some (⟨[], [("a", .symbol "c"), ("e", .symbol "c")],
            [(.symbol "b", .symbol "c")]⟩,
          Except.ok "Sorted and rules applied") ∧
    ([("a", Expr.symbol "b"), ("e", Expr.symbol "c")] : List (String × Expr))
      ≠ [("a", Expr.symbol "c"), ("e", Expr.symbol "c")] := by
  refine ⟨?_, ?_, ?_⟩
  · rfl
  · rfl
  · decide

/-- Every expression has positive size. -/
theorem esize_pos : ∀ e : Expr, 1 ≤ esize e := by
  intro e
  cases e <;> simp [esize]

/-- With no rules, the recursive subterm rewriter is the identity
(size-bounded auxiliary form). -/
theorem arrNil_aux : ∀ n : Nat,
    (∀ e : Expr, esize e < n → applyRulesRecursive [] e = e) ∧
    (∀ args : List Expr, esizeList args < n →
      applyRulesRecursiveList [] args = args) := by
  intro n
  induction n with
  | zero =>
    constructor
    · intro e he
      omega
    · intro args h
      omega
  | succ m ih =>
    have hexpr : ∀ e : Expr, esize e < m + 1 → applyRulesRecursive [] e = e := by
      intro e he
      cases e with
      | number q => rfl
      | symbol s => rfl
      | binop op l r =>
        have hl : esize l < m := by
          have := esize_pos r
          simp [esize] at he
          omega
        have hr : esize r < m := by
          have := esize_pos l
          simp [esize] at he
          omega
        simp [applyRulesRecursive, ih.1 l hl, ih.1 r hr, findMatch]
      | unop op x =>
        have hx : esize x < m := by simp [esize] at he; omega
        simp [applyRulesRecursive, ih.1 x hx, findMatch]
      | fcall nm args =>
        have ha : esizeList args < m := by simp [esize] at he; omega
        simp [applyRulesRecursive, ih.2 args ha, findMatch]
    refine ⟨hexpr, ?_⟩
    intro args h
    cases args with
    | nil => rfl
    | cons a as =>
      have h1 : esize a < m + 1 := by
        simp [esizeList] at h
        omega
      have h2 : esizeList as < m := by
        have := esize_pos a
        simp [esizeList] at h
        omega
      simp [applyRulesRecursiveList, hexpr a h1, ih.2 as h2]

/-- With no rules, the recursive subterm rewriter is the identity. -/
theorem applyRulesRecursive_nil (e : Expr) : applyRulesRecursive [] e = e :=
  (arrNil_aux (esize e + 1)).1 e (by omega)

/-- With no rules, the one-shot subterm pass is the identity. -/
theorem subtermPass_nil (e : Expr) : subtermPass [] e = e := by
  cases e with
  | number q => rfl
  | symbol s => rfl
  | binop op l r =>
    simp [subtermPass, applyRulesRecursive_nil]
  | unop op x =>
    simp [subtermPass, applyRulesRecursive_nil]
  | fcall nm args =>
    have : applyRulesRecursiveList [] args = args :=
      (arrNil_aux (esizeList args + 1)).2 args (by omega)
    simp [subtermPass, this]

/-- With no rules, `apply_rules` is exactly `simplify`. -/
theorem applyRules_nil (F : String → ℚ → ℚ) (t : List (String × Expr))
    (fuel : Nat) (e : Expr) :
    applyRules F t fuel [] e = simplify F t fuel e := by
  have h1 : topLoop [] 100 e = (e, true) := by
    show topLoop [] (99 + 1) e = _
    simp [topLoop, findMatch]
  simp only [applyRules, h1, subtermPass_nil]

/-- `isNumEq` decides equality with a numeric literal. -/
theorem isNumEq_iff (e : Expr) (q : ℚ) : isNumEq e q = true ↔ e = .number q := by
  cases e <;> simp [isNumEq]

/-- `isNumEq` is false on anything but the exact literal. -/
theorem isNumEq_eq_false (e : Expr) (q : ℚ) (h : e ≠ .number q) :
    isNumEq e q = false := by
  cases hq : isNumEq e q
  · rfl
  · exact absurd ((isNumEq_iff e q).1 hq) h

/-- A successful constant fold always returns a numeric literal. -/
theorem foldNum_ok (op : BinOpKind) (a b : ℚ) (r : Expr)
    (h : foldNum op a b = some (Except.ok r)) : ∃ q, r = .number q := by
  cases op <;> simp only [foldNum] at h
  · exact ⟨a + b, by simp_all⟩
  · exact ⟨a - b, by simp_all⟩
  · exact ⟨a * b, by simp_all⟩
  · split at h
    · simp at h
    · exact ⟨a / b, by simp_all⟩
  · exact ⟨powf a b, by simp_all⟩

/-- The algebraic-identity pass sends simplified, not-both-numeric sides to a
simplified result. -/
theorem algSimp_isSimplified (t : List (String × Expr)) (op : BinOpKind)
    (l r : Expr) (hl : IsSimplifiedB t l = true) (hr : IsSimplifiedB t r = true)
    (hnum : (isNumberB l && isNumberB r) = false) :
    IsSimplifiedB t (algSimp op l r) = true := by
  cases op with
  | add =>
    simp only [algSimp]
    split_ifs with h1 h2
    · exact hl
    · exact hr
    · simp [IsSimplifiedB, hl, hr, hnum, isNumEq_eq_false _ _ h1,
        isNumEq_eq_false _ _ h2]
  | mul =>
    simp only [algSimp]
    split_ifs with h1 h2 h3 h4
    · simp [IsSimplifiedB]
    · simp [IsSimplifiedB]
    · exact hl
    · exact hr
    · simp [IsSimplifiedB, hl, hr, hnum, isNumEq_eq_false _ _ h1,
        isNumEq_eq_false _ _ h2, isNumEq_eq_false _ _ h3,
        isNumEq_eq_false _ _ h4]
  | pow =>
    simp only [algSimp]
    split_ifs with h1 h2
    · simp [IsSimplifiedB]
    · exact hl
    · simp [IsSimplifiedB, hl, hr, hnum, isNumEq_eq_false _ _ h1,
        isNumEq_eq_false _ _ h2]
  | sub =>
    simp only [algSimp]
    simp [IsSimplifiedB, hl, hr, hnum]
  | div =>
    simp only [algSimp]
    simp [IsSimplifiedB, hl, hr, hnum]

/-- When the sides are not both numeric, `simpBinOp` is the identity pass. -/
theorem simpBinOp_not_both (op : BinOpKind) (l r : Expr)
    (h : (isNumberB l && isNumberB r) = false) :
    simpBinOp op l r = some (Except.ok (algSimp op l r)) := by
  cases l <;> cases r <;> first
    | rfl
    | (simp [isNumberB] at h)

/-- A successful `simpBinOp` on simplified sides yields a simplified
result. -/
theorem simpBinOp_isSimplified (t : List (String × Expr)) (op : BinOpKind)
    (l r r2 : Expr) (hl : IsSimplifiedB t l = true)
    (hr : IsSimplifiedB t r = true)
    (h : simpBinOp op l r = some (Except.ok r2)) :
    IsSimplifiedB t r2 = true := by
  cases hnum : (isNumberB l && isNumberB r) with
  | true =>
    obtain ⟨a, rfl⟩ : ∃ a, l = Expr.number a := by
      cases l <;> simp [isNumberB] at hnum <;> simp
    obtain ⟨b, rfl⟩ : ∃ b, r = Expr.number b := by
      cases r <;> simp [isNumberB] at hnum <;> simp
    obtain ⟨q, rfl⟩ := foldNum_ok op a b r2 h
    simp [IsSimplifiedB]
  | false =>
    rw [simpBinOp_not_both op l r hnum] at h
    simp only [Option.some.injEq, Except.ok.injEq] at h
    subst h
    exact algSimp_isSimplified t op l r hl hr hnum

/-- `UnOp` on a simplified non-numeric operand is simplified. -/
theorem isSimplified_unop (t : List (String × Expr)) (op : UnOpKind)
    (x : Expr) (hx : IsSimplifiedB t x = true) (hn : isNumberB x = false) :
    IsSimplifiedB t (.unop op x) = true := by
  simp [IsSimplifiedB, hx, hn]

/-- `FunctionCall` on simplified arguments that the built-in fold does not
touch is simplified. -/
theorem isSimplified_fcall (t : List (String × Expr)) (nm : String)
    (rs : List Expr) (hrs : IsSimplifiedListB t rs = true)
    (hbs : (isBuiltin nm && isSingleNumber rs) = false) :
    IsSimplifiedB t (.fcall nm rs) = true := by
  simp only [IsSimplifiedB, hrs, hbs]
  rfl

/-- Arguments simplified by a normal-form-producing simplifier are in normal
form. -/
theorem simplifyArgs_isSimplified (g : Expr → Option (Except String Expr))
    (t : List (String × Expr))
    (hg : ∀ e r, g e = some (Except.ok r) → IsSimplifiedB t r = true) :
    ∀ (args rs : List Expr), simplifyArgs g args = some (Except.ok rs) →
      IsSimplifiedListB t rs = true := by
  intro args
  induction args with
  | nil =>
    intro rs h
    simp only [simplifyArgs, Option.some.injEq, Except.ok.injEq] at h
    subst h
    rfl
  | cons a as ih =>
    intro rs h
    simp only [simplifyArgs, rbind] at h
    cases hga : g a with
    | none => rw [hga] at h; simp at h
    | some x =>
      cases x with
      | error m => rw [hga] at h; simp at h
      | ok a2 =>
        rw [hga] at h
        cases hs : simplifyArgs g as with
        | none => rw [hs] at h; simp at h
        | some y =>
          cases y with
          | error m => rw [hs] at h; simp at h
          | ok rs2 =>
            rw [hs] at h
            simp only [Option.some.injEq, Except.ok.injEq] at h
            subst h
            simp [IsSimplifiedListB, hg a a2 hga, ih rs2 hs]

/-- Lemma A for C1: every successful `simplify` output is in normal form for
the table it was simplified against. -/
theorem simplify_isSimplified (F : String → ℚ → ℚ) (t : List (String × Expr)) :
    ∀ (fuel : Nat) (e r : Expr),
      simplify F t fuel e = some (Except.ok r) → IsSimplifiedB t r = true := by
  intro fuel
  induction fuel with
  | zero =>
    intro e r h
    simp [simplify] at h
  | succ f ih =>
    intro e r h
    cases e with
    | number n =>
      rw [simplify_succ_number] at h
      simp only [Option.some.injEq, Except.ok.injEq] at h
      subst h
      rfl
    | symbol name =>
      rw [simplify_succ_symbol] at h
      cases hg : tblGet t name with
      | some v =>
        rw [hg] at h
        exact ih v r h
      | none =>
        rw [hg] at h
        simp only [Option.some.injEq, Except.ok.injEq] at h
        subst h
        simp [IsSimplifiedB, hg]
    | binop op l rr =>
      rw [simplify_succ_binop] at h
      cases hl : simplify F t f l with
      | none => rw [hl] at h; simp [rbind] at h
      | some x =>
        cases x with
        | error m => rw [hl] at h; simp [rbind] at h
        | ok l2 =>
          rw [hl] at h
          cases hr : simplify F t f rr with
          | none => rw [hr] at h; simp [rbind] at h
          | some y =>
            cases y with
            | error m => rw [hr] at h; simp [rbind] at h
            | ok r2 =>
              rw [hr] at h
              simp only [rbind] at h
              exact simpBinOp_isSimplified t op l2 r2 r (ih l l2 hl)
                (ih rr r2 hr) h
    | unop op x =>
      rw [simplify_succ_unop] at h
      cases hx : simplify F t f x with
      | none => rw [hx] at h; simp [rbind] at h
      | some y =>
        cases y with
        | error m => rw [hx] at h; simp [rbind] at h
        | ok x2 =>
          rw [hx] at h
          simp only [rbind] at h
          have hx2 := ih x x2 hx
          cases x2 with
          | number n =>
            simp only [Option.some.injEq, Except.ok.injEq] at h
            subst h
            rfl
          | symbol s =>
            simp only [Option.some.injEq, Except.ok.injEq] at h
            subst h
            exact isSimplified_unop t op _ hx2 rfl
          | binop op2 l2 r2 =>
            simp only [Option.some.injEq, Except.ok.injEq] at h
            subst h
            exact isSimplified_unop t op _ hx2 rfl
          | unop op2 x3 =>
            simp only [Option.some.injEq, Except.ok.injEq] at h
            subst h
            exact isSimplified_unop t op _ hx2 rfl
          | fcall nm2 args2 =>
            simp only [Option.some.injEq, Except.ok.injEq] at h
            subst h
            exact isSimplified_unop t op _ hx2 rfl
    | fcall nm args =>
      rw [simplify_succ_fcall] at h
      cases ha : simplifyArgs (fun a => simplify F t f a) args with
      | none => rw [ha] at h; simp [rbind] at h
      | some y =>
        cases y with
        | error m => rw [ha] at h; simp [rbind] at h
        | ok rs =>
          rw [ha] at h
          simp only [rbind] at h
          have hrs : IsSimplifiedListB t rs = true :=
            simplifyArgs_isSimplified (fun a => simplify F t f a) t
              (fun e2 r2 hh => ih e2 r2 hh) args rs ha
          by_cases hb : isBuiltin nm = true
          · rw [if_pos hb] at h
            cases rs with
            | nil =>
              simp only [Option.some.injEq, Except.ok.injEq] at h
              subst h
              exact isSimplified_fcall t nm [] hrs (by simp [isSingleNumber])
            | cons r1 rs2 =>
              cases rs2 with
              | nil =>
                cases r1 with
                | number n =>
                  simp only [Option.some.injEq, Except.ok.injEq] at h
                  subst h
                  rfl
                | symbol s =>
                  simp only [Option.some.injEq, Except.ok.injEq] at h
                  subst h
                  exact isSimplified_fcall t nm _ hrs (by simp [isSingleNumber])
                | binop op2 l2 r2 =>
                  simp only [Option.some.injEq, Except.ok.injEq] at h
                  subst h
                  exact isSimplified_fcall t nm _ hrs (by simp [isSingleNumber])
                | unop op2 x2 =>
                  simp only [Option.some.injEq, Except.ok.injEq] at h
                  subst h
                  exact isSimplified_fcall t nm _ hrs (by simp [isSingleNumber])
                | fcall nm2 args2 =>
                  simp only [Option.some.injEq, Except.ok.injEq] at h
                  subst h
                  exact isSimplified_fcall t nm _ hrs (by simp [isSingleNumber])
              | cons r2 rs3 =>
                simp only [Option.some.injEq, Except.ok.injEq] at h
                subst h
                exact isSimplified_fcall t nm _ hrs (by simp [isSingleNumber])
          · rw [if_neg hb] at h
            simp only [Option.some.injEq, Except.ok.injEq] at h
            subst h
            simp only [Bool.not_eq_true] at hb
            exact isSimplified_fcall t nm rs hrs (by simp [hb])

/-- Decomposition of normality of a `BinOp`. -/
theorem isSimplified_binop_parts (t : List (String × Expr)) (op : BinOpKind)
    (l r : Expr) (h : IsSimplifiedB t (.binop op l r) = true) :
    IsSimplifiedB t l = true ∧ IsSimplifiedB t r = true ∧
    (isNumberB l && isNumberB r) = false ∧
    (op = .add → (isNumEq r 0 || isNumEq l 0) = false) ∧
    (op = .mul →
      (isNumEq r 0 || isNumEq l 0 || isNumEq r 1 || isNumEq l 1) = false) ∧
    (op = .pow → (isNumEq r 0 || isNumEq r 1) = false) := by
  cases op <;>
    (simp only [IsSimplifiedB, Bool.and_eq_true, Bool.not_eq_true'] at h
     simp_all)

/-- Decomposition of normality of a `UnOp`. -/
theorem isSimplified_unop_parts (t : List (String × Expr)) (op : UnOpKind)
    (x : Expr) (h : IsSimplifiedB t (.unop op x) = true) :
    IsSimplifiedB t x = true ∧ isNumberB x = false := by
  simp only [IsSimplifiedB, Bool.and_eq_true, Bool.not_eq_true'] at h
  exact h

/-- Decomposition of normality of a `FunctionCall`. -/
theorem isSimplified_fcall_parts (t : List (String × Expr)) (nm : String)
    (args : List Expr) (h : IsSimplifiedB t (.fcall nm args) = true) :
    IsSimplifiedListB t args = true ∧
    (isBuiltin nm && isSingleNumber args) = false := by
  simp only [IsSimplifiedB, Bool.and_eq_true, Bool.not_eq_true'] at h
  exact h

/-- Decomposition of normality of an argument list. -/
theorem isSimplifiedList_parts (t : List (String × Expr)) (a : Expr)
    (as : List Expr) (h : IsSimplifiedListB t (a :: as) = true) :
    IsSimplifiedB t a = true ∧ IsSimplifiedListB t as = true := by
  simp only [IsSimplifiedListB, Bool.and_eq_true] at h
  exact h

/-- When none of its identity checks fires, `algSimp` rebuilds the node. -/
theorem algSimp_id (op : BinOpKind) (l r : Expr)
    (ha : op = .add → (isNumEq r 0 || isNumEq l 0) = false)
    (hm : op = .mul →
      (isNumEq r 0 || isNumEq l 0 || isNumEq r 1 || isNumEq l 1) = false)
    (hp : op = .pow → (isNumEq r 0 || isNumEq r 1) = false) :
    algSimp op l r = .binop op l r := by
  cases op with
  | add =>
    have hcond := ha rfl
    simp only [Bool.or_eq_false_iff] at hcond
    rw [algSimp, if_neg, if_neg] <;>
      (intro heq; rw [heq] at hcond; simp [isNumEq] at hcond)
  | mul =>
    have hcond := hm rfl
    simp only [Bool.or_eq_false_iff] at hcond
    rw [algSimp, if_neg, if_neg, if_neg, if_neg] <;>
      (intro heq; rw [heq] at hcond; simp [isNumEq] at hcond)
  | pow =>
    have hcond := hp rfl
    simp only [Bool.or_eq_false_iff] at hcond
    rw [algSimp, if_neg, if_neg] <;>
      (intro heq; rw [heq] at hcond; simp [isNumEq] at hcond)
  | sub => rfl
  | div => rfl

/-- A simplifier that fixes each element fixes the argument list. -/
theorem simplifyArgs_id (g : Expr → Option (Except String Expr)) :
    ∀ args : List Expr, (∀ a ∈ args, g a = some (Except.ok a)) →
      simplifyArgs g args = some (Except.ok args) := by
  intro args
  induction args with
  | nil => intro _; rfl
  | cons a as ih =>
    intro h
    simp only [simplifyArgs, h a (by simp), rbind,
      ih (fun x hx => h x (by simp [hx]))]

/-- An element of an argument list is no larger than the list. -/
theorem esize_mem_le (args : List Expr) (a : Expr) (h : a ∈ args) :
    esize a ≤ esizeList args := by
  induction args with
  | nil => cases h
  | cons b bs ih =>
    rcases List.mem_cons.1 h with rfl | h2
    · simp [esizeList]
    · have := ih h2
      simp [esizeList]
      omega

/-- Lemma B for C1: a normal form re-simplifies to itself once the fuel
covers its size. -/
theorem simplified_fixed (F : String → ℚ → ℚ) (t : List (String × Expr)) :
    ∀ (fuel : Nat) (e : Expr), IsSimplifiedB t e = true → esize e ≤ fuel →
      simplify F t fuel e = some (Except.ok e) := by
  intro fuel
  induction fuel with
  | zero =>
    intro e _ he
    exact absurd (le_trans (esize_pos e) he) (by omega)
  | succ f ih =>
    intro e hs he
    cases e with
    | number n => exact simplify_succ_number F t f n
    | symbol name =>
      rw [simplify_succ_symbol]
      have hg : tblGet t name = none := by
        simp only [IsSimplifiedB] at hs
        exact Option.isNone_iff_eq_none.1 hs
      rw [hg]
    | binop op l r =>
      obtain ⟨hsl, hsr, hnum, hca, hcm, hcp⟩ :=
        isSimplified_binop_parts t op l r hs
      have hle : esize l ≤ f := by
        have := esize_pos r
        simp [esize] at he
        omega
      have hre : esize r ≤ f := by
        have := esize_pos l
        simp [esize] at he
        omega
      rw [simplify_succ_binop, ih l hsl hle, ih r hsr hre]
      simp only [rbind]
      rw [simpBinOp_not_both op l r hnum, algSimp_id op l r hca hcm hcp]
    | unop op x =>
      obtain ⟨hsx, hnx⟩ := isSimplified_unop_parts t op x hs
      have hxe : esize x ≤ f := by simp [esize] at he; omega
      rw [simplify_succ_unop, ih x hsx hxe]
      simp only [rbind]
      cases x with
      | number n => simp [isNumberB] at hnx
      | symbol s => rfl
      | binop op2 l2 r2 => rfl
      | unop op2 x2 => rfl
      | fcall nm2 args2 => rfl
    | fcall nm args =>
      obtain ⟨hsargs, hbs⟩ := isSimplified_fcall_parts t nm args hs
      have hae : esizeList args ≤ f := by simp [esize] at he; omega
      have hargs : simplifyArgs (fun a => simplify F t f a) args
          = some (Except.ok args) := by
        apply simplifyArgs_id
        intro a ha
        have h1 : IsSimplifiedB t a = true := by
          clear hbs hae he hs
          induction args with
          | nil => cases ha
          | cons b bs ih2 =>
            rcases List.mem_cons.1 ha with rfl | h2
            · exact (isSimplifiedList_parts t a bs hsargs).1
            · exact ih2 ((isSimplifiedList_parts t b bs hsargs).2) h2
        exact ih a h1 (le_trans (esize_mem_le args a ha) hae)
      rw [simplify_succ_fcall, hargs]
      simp only [rbind]
      cases hb : isBuiltin nm with
      | false => simp
      | true =>
        rw [hb] at hbs
        simp only [Bool.true_and] at hbs
        simp only [if_true]
        cases args with
        | nil => rfl
        | cons a1 as1 =>
          cases as1 with
          | nil =>
            cases a1 with
            | number n => simp [isSingleNumber] at hbs
            | symbol s => rfl
            | binop o l2 r2 => rfl
            | unop o x2 => rfl
            | fcall n2 a2 => rfl
          | cons a2 as2 => cases a1 <;> rfl

/-- Lemma C for C1 (size-bounded auxiliary form): normality only depends on
which symbols the table defines. -/
theorem isSimplified_congr_aux (t1 t2 : List (String × Expr))
    (hdom : ∀ k, (tblGet t1 k).isNone = (tblGet t2 k).isNone) :
    ∀ n : Nat,
      (∀ e : Expr, esize e < n → IsSimplifiedB t1 e = IsSimplifiedB t2 e) ∧
      (∀ args : List Expr, esizeList args < n →
        IsSimplifiedListB t1 args = IsSimplifiedListB t2 args) := by
  intro n
  induction n with
  | zero =>
    constructor
    · intro e he
      omega
    · intro args ha
      omega
  | succ m ih =>
    have hexpr : ∀ e : Expr, esize e < m + 1 →
        IsSimplifiedB t1 e = IsSimplifiedB t2 e := by
      intro e he
      cases e with
      | number q => rfl
      | symbol sname =>
        simp only [IsSimplifiedB]
        rw [hdom sname]
      | binop op l r =>
        have hl : esize l < m := by
          have := esize_pos r
          simp [esize] at he
          omega
        have hr : esize r < m := by
          have := esize_pos l
          simp [esize] at he
          omega
        simp only [IsSimplifiedB, ih.1 l hl, ih.1 r hr]
      | unop op x =>
        have hx : esize x < m := by simp [esize] at he; omega
        simp only [IsSimplifiedB, ih.1 x hx]
      | fcall nm args =>
        have ha : esizeList args < m := by simp [esize] at he; omega
        simp only [IsSimplifiedB, ih.2 args ha]
    refine ⟨hexpr, ?_⟩
    intro args ha
    cases args with
    | nil => rfl
    | cons a as =>
      have h1 : esize a < m + 1 := by
        simp [esizeList] at ha
        omega
      have h2 : esizeList as < m := by
        have := esize_pos a
        simp [esizeList] at ha
        omega
      simp only [IsSimplifiedListB, hexpr a h1, ih.2 as h2]

/-- Tables with the same key sequence define the same symbols. -/
theorem tblGet_isNone_congr : ∀ t1 t2 : List (String × Expr),
    t1.map Prod.fst = t2.map Prod.fst →
    ∀ k, (tblGet t1 k).isNone = (tblGet t2 k).isNone := by
  intro t1
  induction t1 with
  | nil =>
    intro t2 h k
    cases t2 with
    | nil => rfl
    | cons q qs => simp at h
  | cons p ps ih =>
    intro t2 h k
    cases t2 with
    | nil => simp at h
    | cons q qs =>
      obtain ⟨p1, p2⟩ := p
      obtain ⟨q1, q2⟩ := q
      simp only [List.map_cons, List.cons.injEq] at h
      obtain ⟨h1, h2⟩ := h
      subst h1
      simp only [tblGet]
      by_cases hk : p1 = k
      · simp [hk]
      · simp [hk, ih qs h2 k]

/-- A `Sort` pass with no rules keeps the key sequence and stores only
normal forms (for the pre-`Sort` table). -/
theorem sortTable_nil_spec (F : String → ℚ → ℚ) (t : List (String × Expr))
    (fuel : Nat) :
    ∀ entries updated : List (String × Expr),
      sortTable F t fuel [] entries = some (Except.ok updated) →
      updated.map Prod.fst = entries.map Prod.fst ∧
      ∀ p ∈ updated, IsSimplifiedB t p.2 = true := by
  intro entries
  induction entries with
  | nil =>
    intro updated h
    simp only [sortTable, Option.some.injEq, Except.ok.injEq] at h
    subst h
    exact ⟨rfl, by simp⟩
  | cons kv rest ih =>
    intro updated h
    obtain ⟨k, v⟩ := kv
    simp only [sortTable, applyRules_nil] at h
    cases hv : simplify F t fuel v with
    | none => rw [hv] at h; simp [rbind] at h
    | some x =>
      cases x with
      | error m => rw [hv] at h; simp [rbind] at h
      | ok v2 =>
        rw [hv] at h
        simp only [rbind] at h
        cases hrest : sortTable F t fuel [] rest with
        | none => rw [hrest] at h; simp at h
        | some y =>
          cases y with
          | error m => rw [hrest] at h; simp at h
          | ok rest2 =>
            rw [hrest] at h
            simp only [Option.some.injEq, Except.ok.injEq] at h
            subst h
            obtain ⟨ihk, ihv⟩ := ih rest2 hrest
            refine ⟨by simp [ihk], ?_⟩
            intro p hp
            rcases List.mem_cons.1 hp with rfl | h2
            · exact simplify_isSimplified F t fuel v v2 hv
            · exact ihv p h2

/-- A `Sort` pass with no rules over a table of normal forms (with enough
fuel) is the identity. -/
theorem sortTable_nil_id (F : String → ℚ → ℚ) (t2 : List (String × Expr))
    (fuel : Nat) :
    ∀ entries : List (String × Expr),
      (∀ p ∈ entries, IsSimplifiedB t2 p.2 = true) →
      (∀ p ∈ entries, esize p.2 ≤ fuel) →
      sortTable F t2 fuel [] entries = some (Except.ok entries) := by
  intro entries
  induction entries with
  | nil =>
    intro _ _
    rfl
  | cons kv rest ih =>
    obtain ⟨k, v⟩ := kv
    intro hsim hsz
    have hfix : simplify F t2 fuel v = some (Except.ok v) :=
      simplified_fixed F t2 fuel v (hsim (k, v) (by simp))
        (hsz (k, v) (by simp))
    simp only [sortTable, applyRules_nil, hfix, rbind,
      ih (fun p hp => hsim p (by simp [hp])) (fun p hp => hsz p (by simp [hp]))]

/-- Every element of a list of naturals is at most its `foldr max`. -/
theorem le_foldr_max : ∀ (l : List Nat) (x : Nat), x ∈ l →
    x ≤ l.foldr max 0 := by
  intro l
  induction l with
  | nil =>
    intro x hx
    cases hx
  | cons a as ih =>
    intro x hx
    rcases List.mem_cons.1 hx with rfl | h2
    · exact le_max_left _ _
    · exact le_trans (ih x h2) (le_max_right _ _)

/-- C1 amended: `Sort` run twice in a row is only guaranteed to reproduce the
`expressions` table when the rules list is empty — the final `simplify` of a
rule pass can create fresh redexes that only the next `Sort` rewrites (see
the counterexample).  With no rules, a successful `Sort` stores normal forms,
and a second `Sort` (with enough fuel for the re-simplification) returns the
same session state unchanged. -/
theorem sort_idempotent_no_rules (F : String → ℚ → ℚ) (fuel : Nat)
    (st st1 : EvalState) (msg : String)
    (hrules : st.rules = [])
    (h1 : evalStatement F fuel st .sort = some (st1, Except.ok msg)) :
    ∃ fuel2 : Nat, evalStatement F fuel2 st1 .sort
      = some (st1, Except.ok "Sorted and rules applied") := by
  simp only [evalStatement, hrules] at h1
  cases hst : sortTable F st.expressions fuel [] st.expressions with
  | none => rw [hst] at h1; simp at h1
  | some x =>
    cases x with
    | error m => rw [hst] at h1; simp at h1
    | ok updated =>
      rw [hst] at h1
      simp only [Option.some.injEq, Prod.mk.injEq] at h1
      obtain ⟨hsteq, hmsg⟩ := h1
      obtain ⟨hkeys, hvals⟩ :=
        sortTable_nil_spec F st.expressions fuel st.expressions updated hst
      have hdom := tblGet_isNone_congr updated st.expressions hkeys
      have hvals2 : ∀ p ∈ updated, IsSimplifiedB updated p.2 = true := by
        intro p hp
        have hv := hvals p hp
        have hc := (isSimplified_congr_aux st.expressions updated
          (fun k => (hdom k).symm) (esize p.2 + 1)).1 p.2 (by omega)
        rw [← hc]
        exact hv
      refine ⟨(updated.map (fun p => esize p.2)).foldr max 0, ?_⟩
      subst hsteq
      have hsz : ∀ p ∈ updated,
          esize p.2 ≤ (updated.map (fun p => esize p.2)).foldr max 0 := by
        intro p hp
        exact le_foldr_max _ _ (List.mem_map_of_mem _ hp)
      simp only [evalStatement, hrules]
      rw [sortTable_nil_id F updated _ updated hvals2 hsz]

/-- C1 amended witness: with no rules, sorting a one-entry table twice
returns the identical state. -/
theorem sort_idempotent_no_rules_witness :
    (⟨[], [("e", Expr.number 1)], []⟩ : EvalState).rules = [] ∧
    evalStatement zeroF 2 ⟨[], [("e", Expr.number 1)], []⟩ .sort
      = some (⟨[], [("e", Expr.number 1)], []⟩,
          Except.ok "Sorted and rules applied") ∧
    ∃ fuel2 : Nat,
      evalStatement zeroF fuel2 ⟨[], [("e", Expr.number 1)], []⟩ .sort
        = some (⟨[], [("e", Expr.number 1)], []⟩,
            Except.ok "Sorted and rules applied") :=
  ⟨rfl, rfl,
    sort_idempotent_no_rules zeroF 2 ⟨[], [("e", Expr.number 1)], []⟩
      ⟨[], [("e", Expr.number 1)], []⟩ "Sorted and rules applied" rfl rfl⟩
